import Mathlib

/-
Verification of the skills-mapping object model (skills_models.py):
the Bayesian Knowledge Tracing estimator, the SkillsMap (skill/objective
graph) and the ResourcesMap (resource/skill graph).

Embedding conventions:
* Python floats are embedded as exact rationals.
* A Python call that raises (ZeroDivisionError, AttributeError from a
  missing sub-element, AssertionError from a failed assert) is embedded
  as Option/Except: the error branch carries the kind of fault.
* XML documents are embedded post-parse: a skills document is the list
  of skill elements (id attribute, text) and objective elements (id
  attribute, optional description sub-element whose text may be empty,
  and the list of skill idref attributes); a resources document is its
  root id attribute and the list of resource elements.
* A Python dict is embedded as a function with pointwise update
  (last write wins, as in the source); a Python set is embedded as a
  duplicate-free-by-construction list, with membership as the set
  membership relation.
-/

namespace SkillsModels

/-- The Baysian Knowledge Tracing estimator: the parameter triple stored
by BKTEstimator.__init__. -/
structure BKTEstimator where
  p_learning : ℚ
  p_guess : ℚ
  p_slip : ℚ
deriving DecidableEq

/-- BKTEstimator.get_standard_estimator: learning 0.1, guess 0.3, slip 0.2. -/
def BKTEstimator.get_standard_estimator : BKTEstimator :=
  ⟨1/10, 3/10, 1/5⟩

/-- BKTEstimator.get_posterior.  The source computes
p = prior*(1-slip) / (prior*(1-slip) + (1-prior)*guess) on a correct
observation and p = prior*slip / (prior*slip + (1-prior)*(1-guess)) on an
incorrect one, then returns p + (1-p)*learning.  The division is not
guarded: a zero denominator raises ZeroDivisionError in Python, embedded
here as the none branch. -/
def BKTEstimator.get_posterior (est : BKTEstimator) (prior : ℚ) (is_correct : Bool) :
    Option ℚ :=
  let not_prior := 1 - prior
  let p? : Option ℚ :=
    if is_correct then
      let p_not_slip := 1 - est.p_slip
      if prior * p_not_slip + not_prior * est.p_guess = 0 then none
      else some (prior * p_not_slip / (prior * p_not_slip + not_prior * est.p_guess))
    else
      if prior * est.p_slip + not_prior * (1 - est.p_guess) = 0 then none
      else some (prior * est.p_slip / (prior * est.p_slip + not_prior * (1 - est.p_guess)))
  match p? with
  | none => none
  | some p => some (p + (1 - p) * est.p_learning)

/-- The denominator of the Bayesian ratio in get_posterior, as a function
of the parameters, the prior and the correctness flag. -/
def bktDenominator (est : BKTEstimator) (prior : ℚ) (is_correct : Bool) : ℚ :=
  if is_correct then prior * (1 - est.p_slip) + (1 - prior) * est.p_guess
  else prior * est.p_slip + (1 - prior) * (1 - est.p_guess)

/-- A Skill: the id attribute and the element text (None for an empty
element), as stored by Skill.__init__. -/
structure Skill where
  id : String
  description : Option String
deriving DecidableEq

/-- An Objective: the id attribute and the text of the description
sub-element (None for an empty sub-element). -/
structure Objective where
  id : String
  description : Option String
deriving DecidableEq

/-- A skill element of a skills document: its id attribute and its text
content. -/
structure SkillElt where
  id : String
  text : Option String
deriving DecidableEq

/-- An objective element of a skills document: its id attribute, its
description sub-element (none when the sub-element is absent, some t for a
present sub-element with text t), and the idref attributes of its nested
skill elements in document order. -/
structure ObjectiveElt where
  id : String
  descriptionElt : Option (Option String)
  skillRefs : List String
deriving DecidableEq

/-- A skills document after XML parsing: the skill elements of the skills
section and the objective elements of the objectives section, in document
order. -/
structure SkillsDoc where
  skills : List SkillElt
  objectives : List ObjectiveElt
deriving DecidableEq

/-- The faults construction can raise: assertionError embeds a failed
Python assert (AssertionError, the structural error of the spec),
attributeError embeds the AttributeError raised by reading .text off a
find result that is None (missing description sub-element). -/
inductive ParseError where
  | assertionError (msg : String)
  | attributeError
deriving DecidableEq

/-- Adding a value to the set stored under a key of a dict of sets:
setdefault(k, set()).add(v), with the set embedded as a duplicate-free
list and the dict as a total function defaulting to the empty set. -/
def setAdd (m : String → List String) (k v : String) : String → List String :=
  fun x => if x = k then (if v ∈ m k then m k else v :: m k) else m x

/-- The SkillsMap state: the fields set by SkillsMap.__init__ and filled
by from_xml. -/
structure SkillsMap where
  objectives : List Objective
  objectives_by_id : String → Option Objective
  skills : List Skill
  skills_by_id : String → Option Skill
  skills_to_objectives_map : String → List String
  objectives_to_skills_map : String → List String

/-- The freshly constructed SkillsMap (empty lists and dicts). -/
def SkillsMap.empty : SkillsMap :=
  ⟨[], fun _ => none, [], fun _ => none, fun _ => [], fun _ => []⟩

/-- One iteration of the skills loop of SkillsMap.from_xml: append the
skill and record it in the id lookup (overwriting any previous skill with
the same id, as a dict assignment does). -/
def processSkill (m : SkillsMap) (e : SkillElt) : SkillsMap :=
  let skill : Skill := ⟨e.id, e.text⟩
  { m with skills := m.skills ++ [skill],
           skills_by_id := fun k => if k = skill.id then some skill else m.skills_by_id k }

/-- One iteration of the inner skill-reference loop of the objectives
loop: assert the referenced skill id is a declared skill, then record the
edge in both adjacency dicts. -/
def processRef (m : SkillsMap) (objectiveId : String) (skill_id : String) :
    Except ParseError SkillsMap :=
  if (m.skills_by_id skill_id).isSome then
    .ok { m with
          skills_to_objectives_map := setAdd m.skills_to_objectives_map skill_id objectiveId,
          objectives_to_skills_map := setAdd m.objectives_to_skills_map objectiveId skill_id }
  else .error (.assertionError ("Objective references unknown skill " ++ skill_id))

/-- One iteration of the objectives loop of SkillsMap.from_xml: read the
description sub-element's text (AttributeError when the sub-element is
absent), append the objective, record it in the id lookup, then process
its skill references. -/
def processObjective (m : SkillsMap) (e : ObjectiveElt) : Except ParseError SkillsMap :=
  match e.descriptionElt with
  | none => .error .attributeError
  | some txt =>
    let obj : Objective := ⟨e.id, txt⟩
    let m1 := { m with
                objectives := m.objectives ++ [obj],
                objectives_by_id := fun k => if k = obj.id then some obj else m.objectives_by_id k }
    e.skillRefs.foldlM (fun acc r => processRef acc obj.id r) m1

/-- SkillsMap.from_xml: process every skill element, then every objective
element, starting from the freshly constructed map. -/
def SkillsMap.from_xml (doc : SkillsDoc) : Except ParseError SkillsMap :=
  doc.objectives.foldlM processObjective (doc.skills.foldl processSkill SkillsMap.empty)

/-- SkillsMap.get_objective_by_id: dict .get, None on a miss. -/
def SkillsMap.get_objective_by_id (m : SkillsMap) (id_str : String) : Option Objective :=
  m.objectives_by_id id_str

/-- SkillsMap.get_skill_by_id: dict .get, None on a miss. -/
def SkillsMap.get_skill_by_id (m : SkillsMap) (id_str : String) : Option Skill :=
  m.skills_by_id id_str

/-- SkillsMap.get_skills_for_objective: the stored set, empty on a miss. -/
def SkillsMap.get_skills_for_objective (m : SkillsMap) (objective_id : String) : List String :=
  m.objectives_to_skills_map objective_id

/-- SkillsMap.get_objectives_for_skill: the stored set, empty on a miss. -/
def SkillsMap.get_objectives_for_skill (m : SkillsMap) (skill_id : String) : List String :=
  m.skills_to_objectives_map skill_id

/-- A resource element of a resources document: its id attribute and the
idref attributes of its nested skill elements in document order. -/
structure ResourceElt where
  id : String
  skillRefs : List String
deriving DecidableEq

/-- A resources document after XML parsing: the root id attribute (None
when absent) and the resource elements in document order. -/
structure ResourcesDoc where
  id : Option String
  resources : List ResourceElt
deriving DecidableEq

/-- The ResourcesMap state: the fields set by ResourcesMap.__init__ and
filled by from_xml.  skills_map is the optional reference to a SkillsMap
supplied at construction. -/
structure ResourcesMap where
  id : Option String
  skills_map : Option SkillsMap
  skills_to_resources_map : String → List String
  resources_to_skills_map : String → List String
  resource_ids : List String

/-- The assert guard of the resources loop:
(skills_map is None) or (skills_map.get_skill_by_id(skill_id) is not None). -/
def checkResourceRef (skills_map : Option SkillsMap) (skill_id : String) : Bool :=
  match skills_map with
  | none => true
  | some sm => (sm.get_skill_by_id skill_id).isSome

/-- One iteration of the inner skill-reference loop of
ResourcesMap.from_xml: assert the guard, then record the edge in both
adjacency dicts. -/
def processResourceRef (rm : ResourcesMap) (resource_id skill_id : String) :
    Except ParseError ResourcesMap :=
  if checkResourceRef rm.skills_map skill_id then
    .ok { rm with
          skills_to_resources_map := setAdd rm.skills_to_resources_map skill_id resource_id,
          resources_to_skills_map := setAdd rm.resources_to_skills_map resource_id skill_id }
  else .error (.assertionError skill_id)

/-- One iteration of the resources loop of ResourcesMap.from_xml: append
the resource id, then process the resource's skill references. -/
def processResource (rm : ResourcesMap) (e : ResourceElt) : Except ParseError ResourcesMap :=
  let rm1 := { rm with resource_ids := rm.resource_ids ++ [e.id] }
  e.skillRefs.foldlM (fun acc r => processResourceRef acc e.id r) rm1

/-- ResourcesMap.from_xml: construct the map with the root id and the
optional skills_map reference, then process every resource element. -/
def ResourcesMap.from_xml (doc : ResourcesDoc) (skills_map : Option SkillsMap) :
    Except ParseError ResourcesMap :=
  doc.resources.foldlM processResource ⟨doc.id, skills_map, fun _ => [], fun _ => [], []⟩

/-- ResourcesMap.get_skills_for_resource: the stored set, empty on a miss. -/
def ResourcesMap.get_skills_for_resource (rm : ResourcesMap) (resource_id : String) :
    List String :=
  rm.resources_to_skills_map resource_id

/-- ResourcesMap.get_resources_for_skill: the stored set, empty on a miss. -/
def ResourcesMap.get_resources_for_skill (rm : ResourcesMap) (skill_id : String) :
    List String :=
  rm.skills_to_resources_map skill_id

/-- ResourcesMap.get_objectives_for_resource: assert self._skills_map (a
SkillsMap object is always truthy, so the assert fails exactly when it is
None, embedded as the none branch), then union the SkillsMap's objectives
over the resource's skills.  The Python set union is embedded as list
concatenation, read up to membership. -/
def ResourcesMap.get_objectives_for_resource (rm : ResourcesMap) (resource_id : String) :
    Option (List String) :=
  match rm.skills_map with
  | none => none
  | some sm =>
    some ((rm.get_skills_for_resource resource_id).foldl
      (fun objectives skill_id => objectives ++ sm.get_objectives_for_skill skill_id) [])

/-- The value of a successful construction, a default otherwise. -/
def exceptGetD {ε α : Type} (x : Except ε α) (d : α) : α :=
  match x with
  | .ok a => a
  | .error _ => d

/-- A well-formed skills document: two skills, one objective referencing
both. -/
def doc1 : SkillsDoc :=
  ⟨[⟨"s1", some "Skill one"⟩, ⟨"s2", some "Skill two"⟩],
   [⟨"o1", some (some "Objective one"), ["s1", "s2"]⟩]⟩

/-- The SkillsMap built from doc1. -/
def m1 : SkillsMap := exceptGetD (SkillsMap.from_xml doc1) SkillsMap.empty

/-- A skills document whose objective has no description sub-element but
only declared skill references. -/
def doc0 : SkillsDoc :=
  ⟨[⟨"s1", some "Skill one"⟩], [⟨"o1", none, ["s1"]⟩]⟩

/-- A skills document whose objective references an undeclared skill. -/
def docBadRef : SkillsDoc :=
  ⟨[⟨"s1", some "Skill one"⟩], [⟨"o1", some (some "Objective one"), ["s9"]⟩]⟩

/-- A skills document declaring two skills with the same id. -/
def docDup : SkillsDoc :=
  ⟨[⟨"s1", some "a"⟩, ⟨"s1", some "b"⟩], []⟩

/-- The SkillsMap built from docDup. -/
def mDup : SkillsMap := exceptGetD (SkillsMap.from_xml docDup) SkillsMap.empty

/-- A resources document with one resource referencing the two skills of
doc1. -/
def rdoc1 : ResourcesDoc := ⟨some "rmap", [⟨"r1", ["s1", "s2"]⟩]⟩

/-- A resources document whose resource references a skill absent from
doc1's SkillsMap. -/
def rdocBad : ResourcesDoc := ⟨some "rmap", [⟨"r1", ["s9"]⟩]⟩

/-- The empty ResourcesMap used as a default. -/
def ResourcesMap.emptyDefault : ResourcesMap :=
  ⟨none, none, fun _ => [], fun _ => [], []⟩

/-- The ResourcesMap built from rdoc1 against m1. -/
def rm1 : ResourcesMap :=
  exceptGetD (ResourcesMap.from_xml rdoc1 (some m1)) ResourcesMap.emptyDefault

/-- The ResourcesMap built from rdoc1 without a SkillsMap reference. -/
def rmNone : ResourcesMap :=
  exceptGetD (ResourcesMap.from_xml rdoc1 none) ResourcesMap.emptyDefault

end SkillsModels

namespace SkillsModels

/-- C1: for every estimator, prior and correctness flag at which the
Bayesian ratio's denominator is non-zero, get_posterior returns
p + (1-p)*learning where p is prior*(1-slip)/(prior*(1-slip)+(1-prior)*guess)
on a correct observation and prior*slip/(prior*slip+(1-prior)*(1-guess)) on
an incorrect one. -/
theorem C1_get_posterior_formula (est : BKTEstimator) (prior : ℚ) (is_correct : Bool)
    (h : bktDenominator est prior is_correct ≠ 0) :
    est.get_posterior prior is_correct =
      some ((if is_correct then
              prior * (1 - est.p_slip) / (prior * (1 - est.p_slip) + (1 - prior) * est.p_guess)
             else
              prior * est.p_slip / (prior * est.p_slip + (1 - prior) * (1 - est.p_guess))) +
            (1 - (if is_correct then
              prior * (1 - est.p_slip) / (prior * (1 - est.p_slip) + (1 - prior) * est.p_guess)
             else
              prior * est.p_slip / (prior * est.p_slip + (1 - prior) * (1 - est.p_guess)))) *
            est.p_learning) := by
  cases is_correct <;>
    simp only [bktDenominator, if_true, if_false, Bool.false_eq_true, ite_false, ite_true] at h ⊢ <;>
    simp [BKTEstimator.get_posterior, h]

/-- C1 witness: the standard estimator at prior 1/2 on a correct
observation has denominator 11/20 and posterior 83/110. -/
theorem C1_witness :
    BKTEstimator.get_standard_estimator.get_posterior (1/2) true = some (83/110) := by
  have h : bktDenominator BKTEstimator.get_standard_estimator (1/2) true ≠ 0 := by
    norm_num [bktDenominator, BKTEstimator.get_standard_estimator]
  rw [C1_get_posterior_formula BKTEstimator.get_standard_estimator (1/2) true h]
  norm_num [BKTEstimator.get_standard_estimator]

/-- C2 counterexample: for the estimator with learning 0, guess 0, slip 0
at prior 0 on a correct observation the denominator is zero, and
get_posterior is none (the embedded ZeroDivisionError), not the prior
unchanged: the division is not guarded. -/
theorem C2_counterexample :
    bktDenominator ⟨0, 0, 0⟩ 0 true = 0 ∧
    BKTEstimator.get_posterior ⟨0, 0, 0⟩ 0 true = none ∧
    BKTEstimator.get_posterior ⟨0, 0, 0⟩ 0 true ≠ some 0 := by
  refine ⟨by norm_num [bktDenominator], by norm_num [BKTEstimator.get_posterior], ?_⟩
  have hnone : BKTEstimator.get_posterior ⟨0, 0, 0⟩ 0 true = none := by
    norm_num [BKTEstimator.get_posterior]
  rw [hnone]
  simp

/-- C2 amended: whenever the Bayesian ratio's denominator is zero,
get_posterior propagates a numeric fault (ZeroDivisionError, embedded as
none) rather than returning the prior: the division is unguarded. -/
theorem C2_zero_denominator_unguarded (est : BKTEstimator) (prior : ℚ) (is_correct : Bool)
    (h : bktDenominator est prior is_correct = 0) :
    est.get_posterior prior is_correct = none := by
  cases is_correct <;>
    simp only [bktDenominator, Bool.false_eq_true, ite_false, ite_true] at h <;>
    simp [BKTEstimator.get_posterior, h]

/-- C2 witness: the estimator with learning 0.1, guess 0.3, slip 1 at
prior 1 on a correct observation has a zero denominator and get_posterior
faults. -/
theorem C2_witness :
    bktDenominator ⟨1/10, 3/10, 1⟩ 1 true = 0 ∧
    BKTEstimator.get_posterior ⟨1/10, 3/10, 1⟩ 1 true = none :=
  ⟨by norm_num [bktDenominator],
   C2_zero_denominator_unguarded ⟨1/10, 3/10, 1⟩ 1 true (by norm_num [bktDenominator])⟩

/-- C3 counterexample: the estimator with learning 0.1, guess 0.3 and
slip 0 at prior 1/2 (strictly between 0 and 1) returns 103/130 on a
correct observation, not 1: slip = 0 does not give certainty. -/
theorem C3_counterexample :
    (BKTEstimator.mk (1/10) (3/10) 0).p_slip = 0 ∧
    (0:ℚ) < 1/2 ∧ (1/2:ℚ) < 1 ∧
    BKTEstimator.get_posterior ⟨1/10, 3/10, 0⟩ (1/2) true = some (103/130) ∧
    (103/130 : ℚ) ≠ 1 := by
  refine ⟨rfl, by norm_num, by norm_num, ?_, by norm_num⟩
  norm_num [BKTEstimator.get_posterior]

/-- C3 amended: for every estimator whose guess parameter is 0 (not its
slip parameter, as the claim stated) and whose slip parameter is not 1,
and every prior strictly between 0 and 1, get_posterior on a correct
observation returns exactly 1. -/
theorem C3_no_guess_certainty (est : BKTEstimator) (prior : ℚ)
    (hg : est.p_guess = 0) (hs : est.p_slip ≠ 1) (h0 : 0 < prior) (h1 : prior < 1) :
    est.get_posterior prior true = some 1 := by
  have hne : prior * (1 - est.p_slip) ≠ 0 :=
    mul_ne_zero (ne_of_gt h0) (sub_ne_zero.mpr (Ne.symm hs))
  have hd : prior * (1 - est.p_slip) + (1 - prior) * est.p_guess ≠ 0 := by
    rw [hg, mul_zero, add_zero]; exact hne
  simp only [BKTEstimator.get_posterior, if_pos rfl, ite_true]
  rw [if_neg hd, hg, mul_zero, add_zero, div_self hne]
  norm_num

/-- C3 witness: the estimator with learning 0.1, guess 0 and slip 0.2 at
prior 1/2 returns exactly 1 on a correct observation. -/
theorem C3_witness :
    BKTEstimator.get_posterior ⟨1/10, 0, 1/5⟩ (1/2) true = some 1 :=
  C3_no_guess_certainty ⟨1/10, 0, 1/5⟩ (1/2) rfl (by norm_num) (by norm_num) (by norm_num)

/-- C10: for the standard estimator and every prior in [0,1], the
denominator of the Bayesian ratio is at least 0.3 on a correct observation
and at least 0.2 on an incorrect one, so get_posterior always returns a
value (never divides by zero). -/
theorem C10_standard_denominator_positive (prior : ℚ) (h0 : 0 ≤ prior) (h1 : prior ≤ 1) :
    (3/10 : ℚ) ≤ bktDenominator BKTEstimator.get_standard_estimator prior true ∧
    (1/5 : ℚ) ≤ bktDenominator BKTEstimator.get_standard_estimator prior false ∧
    ∀ is_correct : Bool,
      (BKTEstimator.get_standard_estimator.get_posterior prior is_correct).isSome = true := by
  have ht : (3/10 : ℚ) ≤ bktDenominator BKTEstimator.get_standard_estimator prior true := by
    simp only [bktDenominator, BKTEstimator.get_standard_estimator, ite_true]
    nlinarith
  have hf : (1/5 : ℚ) ≤ bktDenominator BKTEstimator.get_standard_estimator prior false := by
    simp only [bktDenominator, BKTEstimator.get_standard_estimator, Bool.false_eq_true, ite_false]
    nlinarith
  refine ⟨ht, hf, ?_⟩
  intro is_correct
  cases is_correct
  · have hne : bktDenominator BKTEstimator.get_standard_estimator prior false ≠ 0 := by
      intro hz; rw [hz] at hf; norm_num at hf
    simp only [bktDenominator, Bool.false_eq_true, ite_false] at hne
    simp [BKTEstimator.get_posterior, BKTEstimator.get_standard_estimator] at hne ⊢
    rw [if_neg hne]
    simp
  · have hne : bktDenominator BKTEstimator.get_standard_estimator prior true ≠ 0 := by
      intro hz; rw [hz] at ht; norm_num at ht
    simp only [bktDenominator, ite_true] at hne
    simp [BKTEstimator.get_posterior, BKTEstimator.get_standard_estimator] at hne ⊢
    rw [if_neg hne]
    simp

/-- C10 witness: at prior 1/2 both bounds hold and get_posterior returns a
value for both correctness flags. -/
theorem C10_witness :
    (3/10 : ℚ) ≤ bktDenominator BKTEstimator.get_standard_estimator (1/2) true ∧
    (1/5 : ℚ) ≤ bktDenominator BKTEstimator.get_standard_estimator (1/2) false ∧
    ∀ is_correct : Bool,
      (BKTEstimator.get_standard_estimator.get_posterior (1/2) is_correct).isSome = true :=
  C10_standard_denominator_positive (1/2) (by norm_num) (by norm_num)

theorem exceptFold_nil {ε β α : Type} (f : β → α → Except ε β) (b : β) :
    ([] : List α).foldlM f b = .ok b := rfl

theorem exceptFold_cons {ε β α : Type} (f : β → α → Except ε β) (b : β) (a : α) (l : List α) :
    (a :: l).foldlM f b = Except.bind (f b a) (fun b' => l.foldlM f b') := rfl

theorem exceptFold_preserve {ε β α : Type} (f : β → α → Except ε β) (P : β → Prop) :
    ∀ l : List α, (∀ b, ∀ a ∈ l, ∀ b', P b → f b a = .ok b' → P b') →
    ∀ b c, P b → l.foldlM f b = .ok c → P c := by
  intro l
  induction l with
  | nil =>
    intro _ b c hb h
    rw [exceptFold_nil] at h
    cases h
    exact hb
  | cons a l ih =>
    intro hstep b c hb h
    rw [exceptFold_cons] at h
    cases hfa : f b a with
    | error e =>
      rw [hfa] at h
      simp [Except.bind] at h
    | ok b' =>
      rw [hfa] at h
      simp only [Except.bind] at h
      exact ih (fun b a ha b' => hstep b a (List.mem_cons_of_mem _ ha) b')
        b' c (hstep b a (List.mem_cons_self a l) b' hb hfa) h

theorem exceptFold_error_kind {ε β α : Type} (f : β → α → Except ε β) (E : ε → Prop) :
    ∀ l : List α, (∀ b, ∀ a ∈ l, ∀ e, f b a = .error e → E e) →
    ∀ b e, l.foldlM f b = .error e → E e := by
  intro l
  induction l with
  | nil =>
    intro _ b e h
    rw [exceptFold_nil] at h
    cases h
  | cons a l ih =>
    intro hstep b e h
    rw [exceptFold_cons] at h
    cases hfa : f b a with
    | error e' =>
      rw [hfa] at h
      simp only [Except.bind] at h
      injection h with h2
      subst h2
      exact hstep b a (List.mem_cons_self a l) e' hfa
    | ok b' =>
      rw [hfa] at h
      simp only [Except.bind] at h
      exact ih (fun b a ha => hstep b a (List.mem_cons_of_mem _ ha)) b' e h

theorem exceptFold_fails {ε β α : Type} (f : β → α → Except ε β) (P : β → Prop)
    (bad : α → Prop) :
    ∀ l : List α,
      (∀ b, ∀ a ∈ l, ∀ b', P b → f b a = .ok b' → P b') →
      (∀ b, ∀ a ∈ l, P b → bad a → ∀ c, f b a ≠ .ok c) →
      ∀ b, P b → (∃ a ∈ l, bad a) → ∀ c, l.foldlM f b ≠ .ok c := by
  intro l
  induction l with
  | nil =>
    intro _ _ b _ hex c
    rcases hex with ⟨a, ha, _⟩
    exact absurd ha (List.not_mem_nil a)
  | cons a l ih =>
    intro hkeep hbad b hb hex c h
    rw [exceptFold_cons] at h
    cases hfa : f b a with
    | error e =>
      rw [hfa] at h
      simp [Except.bind] at h
    | ok b' =>
      rw [hfa] at h
      simp only [Except.bind] at h
      rcases hex with ⟨x, hx, hbx⟩
      rcases List.mem_cons.mp hx with rfl | hx'
      · exact hbad b x (List.mem_cons_self x l) hb hbx b' hfa
      · exact ih (fun b a ha => hkeep b a (List.mem_cons_of_mem _ ha))
          (fun b a ha => hbad b a (List.mem_cons_of_mem _ ha))
          b' (hkeep b a (List.mem_cons_self a l) b' hb hfa) ⟨x, hx', hbx⟩ c h

theorem exceptFold_ok {ε β α : Type} (f : β → α → Except ε β) (P : β → Prop) :
    ∀ l : List α,
      (∀ b, ∀ a ∈ l, P b → ∃ b', f b a = .ok b' ∧ P b') →
      ∀ b, P b → ∃ c, l.foldlM f b = .ok c ∧ P c := by
  intro l
  induction l with
  | nil =>
    intro _ b hb
    exact ⟨b, rfl, hb⟩
  | cons a l ih =>
    intro hstep b hb
    rcases hstep b a (List.mem_cons_self a l) hb with ⟨b', hfa, hb'⟩
    rcases ih (fun b a ha => hstep b a (List.mem_cons_of_mem _ ha)) b' hb' with ⟨c, hc, hPc⟩
    refine ⟨c, ?_, hPc⟩
    rw [exceptFold_cons, hfa]
    simpa [Except.bind] using hc

theorem pureFold_preserve {β α : Type} (f : β → α → β) (P : β → Prop) :
    ∀ l : List α, (∀ b, ∀ a ∈ l, P b → P (f b a)) → ∀ b, P b → P (l.foldl f b) := by
  intro l
  induction l with
  | nil =>
    intro _ b hb
    exact hb
  | cons a l ih =>
    intro hstep b hb
    rw [List.foldl_cons]
    exact ih (fun b a ha => hstep b a (List.mem_cons_of_mem _ ha))
      (f b a) (hstep b a (List.mem_cons_self a l) hb)

theorem processRef_ok_fields {m : SkillsMap} {i r : String} {m' : SkillsMap}
    (h : processRef m i r = .ok m') :
    m'.skills_by_id = m.skills_by_id ∧ m'.skills = m.skills := by
  unfold processRef at h
  split at h
  · cases h
    exact ⟨rfl, rfl⟩
  · cases h

theorem processObjective_ok_fields {m : SkillsMap} {e : ObjectiveElt} {m' : SkillsMap}
    (h : processObjective m e = .ok m') :
    m'.skills_by_id = m.skills_by_id ∧ m'.skills = m.skills := by
  cases he : e.descriptionElt with
  | none =>
    simp only [processObjective, he] at h
    cases h
  | some txt =>
    simp only [processObjective, he] at h
    exact exceptFold_preserve _
      (fun x => x.skills_by_id = m.skills_by_id ∧ x.skills = m.skills)
      e.skillRefs
      (fun b a _ b' hPb hok => by
        obtain ⟨h1, h2⟩ := processRef_ok_fields hok
        exact ⟨h1.trans hPb.1, h2.trans hPb.2⟩)
      _ m' ⟨rfl, rfl⟩ h

theorem processResourceRef_ok_fields {rm : ResourcesMap} {i r : String} {rm' : ResourcesMap}
    (h : processResourceRef rm i r = .ok rm') :
    rm'.skills_map = rm.skills_map := by
  unfold processResourceRef at h
  split at h
  · cases h
    rfl
  · cases h

theorem processResource_ok_fields {rm : ResourcesMap} {e : ResourceElt} {rm' : ResourcesMap}
    (h : processResource rm e = .ok rm') :
    rm'.skills_map = rm.skills_map := by
  simp only [processResource] at h
  exact exceptFold_preserve _ (fun x => x.skills_map = rm.skills_map)
    e.skillRefs
    (fun b a _ b' hPb hok => (processResourceRef_ok_fields hok).trans hPb)
    _ rm' rfl h

theorem foldlAppend_mem {α β : Type} (f : β → List α) (x : α) :
    ∀ (l : List β) (acc : List α),
      (x ∈ l.foldl (fun acc s => acc ++ f s) acc ↔ x ∈ acc ∨ ∃ s ∈ l, x ∈ f s) := by
  intro l
  induction l with
  | nil =>
    intro acc
    simp
  | cons a l ih =>
    intro acc
    rw [List.foldl_cons, ih (acc ++ f a)]
    simp [List.mem_append, or_assoc]

/-- C4: for every ResourcesMap built with a SkillsMap reference,
get_objectives_for_resource returns the union, over every skill of
get_skills_for_resource, of the SkillsMap's get_objectives_for_skill;
built without one, the call fails the assert (the none branch) instead of
returning a value. -/
theorem C4_objectives_for_resource (rm : ResourcesMap) (resource_id : String) :
    (∀ sm, rm.skills_map = some sm →
      ∃ l, rm.get_objectives_for_resource resource_id = some l ∧
        ∀ o, o ∈ l ↔ ∃ s ∈ rm.get_skills_for_resource resource_id,
          o ∈ sm.get_objectives_for_skill s) ∧
    (rm.skills_map = none → rm.get_objectives_for_resource resource_id = none) := by
  constructor
  · intro sm hsm
    unfold ResourcesMap.get_objectives_for_resource
    rw [hsm]
    refine ⟨_, rfl, ?_⟩
    intro o
    have hm := foldlAppend_mem (fun skill_id => sm.get_objectives_for_skill skill_id) o
      (rm.get_skills_for_resource resource_id) []
    simpa using hm
  · intro hnone
    unfold ResourcesMap.get_objectives_for_resource
    rw [hnone]

/-- C4 witness: on the map built from rdoc1 against m1, the objectives of
resource r1 are exactly those reachable through its skills. -/
theorem C4_witness :
    ∃ l, rm1.get_objectives_for_resource "r1" = some l ∧
      ∀ o, o ∈ l ↔ ∃ s ∈ rm1.get_skills_for_resource "r1",
        o ∈ m1.get_objectives_for_skill s :=
  (C4_objectives_for_resource rm1 "r1").1 m1 rfl

/-- C9 counterexample: doc0's only objective has no description
sub-element, and from_xml fails with the embedded AttributeError instead
of succeeding with a null description. -/
theorem C9_counterexample :
    doc0.objectives.map ObjectiveElt.descriptionElt = [none] ∧
    SkillsMap.from_xml doc0 = .error ParseError.attributeError :=
  ⟨rfl, rfl⟩

/-- C9 amended: for every skills document containing an objective element
with no description sub-element, SkillsMap.from_xml does not succeed: the
read of the description text raises (AttributeError) and no SkillsMap is
returned. -/
theorem C9_missing_description_fails (doc : SkillsDoc)
    (h : ∃ o ∈ doc.objectives, o.descriptionElt = none) :
    ∀ m, SkillsMap.from_xml doc ≠ .ok m := by
  intro m
  unfold SkillsMap.from_xml
  exact exceptFold_fails processObjective (fun _ => True)
    (fun o => o.descriptionElt = none)
    doc.objectives
    (fun _ _ _ _ _ _ => trivial)
    (fun b o _ _ hbado c hok => by
      simp only [processObjective, hbado] at hok
      cases hok)
    _ trivial h m

/-- C9 witness: from_xml on doc0 does not return the empty map (or any
map). -/
theorem C9_witness : SkillsMap.from_xml doc0 ≠ .ok SkillsMap.empty :=
  C9_missing_description_fails doc0 ⟨⟨"o1", none, ["s1"]⟩, by decide, rfl⟩ SkillsMap.empty

theorem skillsFold_by_id_isSome :
    ∀ (l : List SkillElt) (m0 : SkillsMap) (k : String),
      (((l.foldl processSkill m0).skills_by_id k).isSome = true ↔
        k ∈ l.map SkillElt.id ∨ (m0.skills_by_id k).isSome = true) := by
  intro l
  induction l with
  | nil =>
    intro m0 k
    simp
  | cons e l ih =>
    intro m0 k
    rw [List.foldl_cons, ih]
    by_cases hk : k = e.id
    · simp [processSkill, hk]
    · simp [processSkill, hk]

theorem skillsFold_skills :
    ∀ (l : List SkillElt) (m0 : SkillsMap),
      (l.foldl processSkill m0).skills =
        m0.skills ++ l.map (fun e => Skill.mk e.id e.text) := by
  intro l
  induction l with
  | nil =>
    intro m0
    simp
  | cons e l ih =>
    intro m0
    rw [List.foldl_cons, ih]
    simp [processSkill]

/-- C5 counterexample: doc0's objective references only declared skills,
yet from_xml fails (with the embedded AttributeError of the missing
description sub-element), so construction does not succeed on every
document whose objective skill references are all declared. -/
theorem C5_counterexample :
    doc0.objectives.all
      (fun o => o.skillRefs.all (fun r => (doc0.skills.map SkillElt.id).contains r)) = true ∧
    SkillsMap.from_xml doc0 = .error ParseError.attributeError :=
  ⟨rfl, rfl⟩

/-- C5 amended: restricted to skills documents in which every objective
has a description sub-element, SkillsMap.from_xml fails with a
StructuralError (a failed assert, embedded as assertionError) whenever
some objective references an undeclared skill id, and succeeds whenever
every objective skill reference is declared. -/
theorem C5_undeclared_skill (doc : SkillsDoc)
    (hdesc : ∀ o ∈ doc.objectives, o.descriptionElt ≠ none) :
    ((∃ o ∈ doc.objectives, ∃ r ∈ o.skillRefs, r ∉ doc.skills.map SkillElt.id) →
      ∃ msg, SkillsMap.from_xml doc = .error (.assertionError msg)) ∧
    ((∀ o ∈ doc.objectives, ∀ r ∈ o.skillRefs, r ∈ doc.skills.map SkillElt.id) →
      ∃ m, SkillsMap.from_xml doc = .ok m) := by
  have hdecl : ∀ k : String,
      (((doc.skills.foldl processSkill SkillsMap.empty).skills_by_id k).isSome = true ↔
        k ∈ doc.skills.map SkillElt.id) := by
    intro k
    rw [skillsFold_by_id_isSome]
    simp [SkillsMap.empty]
  constructor
  · intro hex
    have hfail : ∀ m, SkillsMap.from_xml doc ≠ .ok m := by
      intro m
      unfold SkillsMap.from_xml
      refine exceptFold_fails processObjective
        (fun x => x.skills_by_id =
          (doc.skills.foldl processSkill SkillsMap.empty).skills_by_id)
        (fun o => ∃ r ∈ o.skillRefs, r ∉ doc.skills.map SkillElt.id)
        doc.objectives
        (fun b o _ b' hPb hok => ((processObjective_ok_fields hok).1).trans hPb)
        ?_ _ rfl hex m
      intro b o _ hPb hbado c hok
      cases ho : o.descriptionElt with
      | none =>
        simp only [processObjective, ho] at hok
        cases hok
      | some txt =>
        simp only [processObjective, ho] at hok
        refine exceptFold_fails _
          (fun x => x.skills_by_id =
            (doc.skills.foldl processSkill SkillsMap.empty).skills_by_id)
          (fun rr => rr ∉ doc.skills.map SkillElt.id)
          o.skillRefs
          (fun b a _ b' hPb hok => ((processRef_ok_fields hok).1).trans hPb)
          ?_ _ hPb hbado c hok
        intro b a _ hPb2 hbada c2 hok2
        unfold processRef at hok2
        split at hok2
        · rename_i hsome
          rw [hPb2] at hsome
          exact hbada ((hdecl a).mp hsome)
        · cases hok2
    have hkind : ∀ e, SkillsMap.from_xml doc = .error e →
        ∃ msg, e = ParseError.assertionError msg := by
      intro e he
      unfold SkillsMap.from_xml at he
      refine exceptFold_error_kind processObjective
        (fun e => ∃ msg, e = ParseError.assertionError msg)
        doc.objectives ?_ _ e he
      intro b o ho e' he'
      cases hdo : o.descriptionElt with
      | none => exact absurd hdo (hdesc o ho)
      | some txt =>
        simp only [processObjective, hdo] at he'
        refine exceptFold_error_kind _
          (fun e => ∃ msg, e = ParseError.assertionError msg)
          o.skillRefs ?_ _ e' he'
        intro b2 a _ e2 he2
        unfold processRef at he2
        split at he2
        · cases he2
        · injection he2 with h3
          exact ⟨_, h3.symm⟩
    cases hx : SkillsMap.from_xml doc with
    | ok m => exact absurd hx (hfail m)
    | error e =>
      rcases hkind e hx with ⟨msg, rfl⟩
      exact ⟨msg, rfl⟩
  · intro hall
    unfold SkillsMap.from_xml
    have hstep : ∀ b, ∀ o ∈ doc.objectives,
        b.skills_by_id = (doc.skills.foldl processSkill SkillsMap.empty).skills_by_id →
        ∃ b', processObjective b o = .ok b' ∧
          b'.skills_by_id = (doc.skills.foldl processSkill SkillsMap.empty).skills_by_id := by
      intro b o ho hPb
      cases hdo : o.descriptionElt with
      | none => exact absurd hdo (hdesc o ho)
      | some txt =>
        simp only [processObjective, hdo]
        refine exceptFold_ok _
          (fun x : SkillsMap => x.skills_by_id =
            (doc.skills.foldl processSkill SkillsMap.empty).skills_by_id)
          o.skillRefs ?_ _ hPb
        intro b2 a ha hPb2
        unfold processRef
        have hsome : (b2.skills_by_id a).isSome = true := by
          rw [hPb2]
          exact (hdecl a).mpr (hall o ho a ha)
        rw [if_pos hsome]
        exact ⟨_, rfl, hPb2⟩
    rcases exceptFold_ok processObjective
      (fun x => x.skills_by_id =
        (doc.skills.foldl processSkill SkillsMap.empty).skills_by_id)
      doc.objectives hstep _ rfl with ⟨c, hc, _⟩
    exact ⟨c, hc⟩

/-- C5 witness: docBadRef (undeclared reference) fails with a structural
assertion error, and doc1 (all references declared) constructs
successfully. -/
theorem C5_witness :
    (∃ msg, SkillsMap.from_xml docBadRef = .error (.assertionError msg)) ∧
    (∃ m, SkillsMap.from_xml doc1 = .ok m) :=
  ⟨(C5_undeclared_skill docBadRef (by decide)).1
      ⟨⟨"o1", some (some "Objective one"), ["s9"]⟩, by decide, "s9", by decide, by decide⟩,
   (C5_undeclared_skill doc1 (by decide)).2 (by decide)⟩

/-- C6: for every resources document, ResourcesMap.from_xml with a
supplied skills_map fails with a StructuralError (a failed assert,
embedded as assertionError) exactly when some resource references a skill
id absent from that skills_map's lookup; with skills_map omitted the same
document always parses successfully. -/
theorem C6_resources_integrity (doc : ResourcesDoc) :
    (∀ sm : SkillsMap,
      ((∃ msg, ResourcesMap.from_xml doc (some sm) = .error (.assertionError msg)) ↔
        ∃ re ∈ doc.resources, ∃ r ∈ re.skillRefs, sm.get_skill_by_id r = none)) ∧
    (∃ rm, ResourcesMap.from_xml doc none = .ok rm) := by
  constructor
  · intro sm
    have hfail : (∃ re ∈ doc.resources, ∃ r ∈ re.skillRefs, sm.get_skill_by_id r = none) →
        ∀ c, ResourcesMap.from_xml doc (some sm) ≠ .ok c := by
      intro hex c
      unfold ResourcesMap.from_xml
      refine exceptFold_fails processResource
        (fun x : ResourcesMap => x.skills_map = some sm)
        (fun re => ∃ r ∈ re.skillRefs, sm.get_skill_by_id r = none)
        doc.resources
        (fun b a _ b' hPb hok => (processResource_ok_fields hok).trans hPb)
        ?_ _ rfl hex c
      intro b re _ hPb hbadre c2 hok
      simp only [processResource] at hok
      refine exceptFold_fails _
        (fun x : ResourcesMap => x.skills_map = some sm)
        (fun rr => sm.get_skill_by_id rr = none)
        re.skillRefs
        (fun b a _ b' hPb hok => (processResourceRef_ok_fields hok).trans hPb)
        ?_ _ ?_ hbadre c2 hok
      · intro b2 a _ hPb2 hbada c3 hok2
        unfold processResourceRef at hok2
        have hfalse : checkResourceRef b2.skills_map a = false := by
          rw [hPb2]
          simp [checkResourceRef, hbada]
        rw [hfalse] at hok2
        simp at hok2
      · exact hPb
    constructor
    · rintro ⟨msg, hmsg⟩
      by_contra hnot
      push_neg at hnot
      have hok : ∃ rm, ResourcesMap.from_xml doc (some sm) = .ok rm := by
        unfold ResourcesMap.from_xml
        have hstep : ∀ b, ∀ re ∈ doc.resources, b.skills_map = some sm →
            ∃ b', processResource b re = .ok b' ∧ b'.skills_map = some sm := by
          intro b re hre hPb
          simp only [processResource]
          refine exceptFold_ok _ (fun x : ResourcesMap => x.skills_map = some sm)
            re.skillRefs ?_ _ hPb
          intro b2 a ha hPb2
          unfold processResourceRef
          have htrue : checkResourceRef b2.skills_map a = true := by
            rw [hPb2]
            simp only [checkResourceRef]
            rw [Option.isSome_iff_ne_none]
            exact hnot re hre a ha
          rw [if_pos htrue]
          exact ⟨_, rfl, hPb2⟩
        rcases exceptFold_ok processResource (fun x : ResourcesMap => x.skills_map = some sm)
          doc.resources hstep ⟨doc.id, some sm, fun _ => [], fun _ => [], []⟩ rfl with ⟨c, hc, _⟩
        exact ⟨c, hc⟩
      rcases hok with ⟨rm, hrm⟩
      rw [hmsg] at hrm
      cases hrm
    · intro hex
      cases hx : ResourcesMap.from_xml doc (some sm) with
      | ok rm => exact absurd hx (hfail hex rm)
      | error e =>
        have hkind : ∃ msg, e = ParseError.assertionError msg := by
          unfold ResourcesMap.from_xml at hx
          refine exceptFold_error_kind processResource
            (fun e => ∃ msg, e = ParseError.assertionError msg)
            doc.resources ?_ _ e hx
          intro b re _ e' he'
          simp only [processResource] at he'
          refine exceptFold_error_kind _
            (fun e => ∃ msg, e = ParseError.assertionError msg)
            re.skillRefs ?_ _ e' he'
          intro b2 a _ e2 he2
          unfold processResourceRef at he2
          split at he2
          · cases he2
          · injection he2 with h3
            exact ⟨_, h3.symm⟩
        rcases hkind with ⟨msg, rfl⟩
        exact ⟨msg, rfl⟩
  · unfold ResourcesMap.from_xml
    have hstep : ∀ b, ∀ re ∈ doc.resources, b.skills_map = none →
        ∃ b', processResource b re = .ok b' ∧ b'.skills_map = none := by
      intro b re _ hPb
      simp only [processResource]
      refine exceptFold_ok _ (fun x : ResourcesMap => x.skills_map = none)
        re.skillRefs ?_ _ hPb
      intro b2 a _ hPb2
      unfold processResourceRef
      have htrue : checkResourceRef b2.skills_map a = true := by
        rw [hPb2]
        rfl
      rw [if_pos htrue]
      exact ⟨_, rfl, hPb2⟩
    rcases exceptFold_ok processResource (fun x : ResourcesMap => x.skills_map = none)
      doc.resources hstep ⟨doc.id, none, fun _ => [], fun _ => [], []⟩ rfl with ⟨c, hc, _⟩
    exact ⟨c, hc⟩

/-- C6 witness: rdocBad (a reference absent from m1) fails against m1
with a structural assertion error, and the same document parses
successfully when no skills_map is supplied. -/
theorem C6_witness :
    (∃ msg, ResourcesMap.from_xml rdocBad (some m1) = .error (.assertionError msg)) ∧
    (∃ rm, ResourcesMap.from_xml rdocBad none = .ok rm) :=
  ⟨((C6_resources_integrity rdocBad).1 m1).mpr
      ⟨⟨"r1", ["s9"]⟩, by decide, "s9", by decide, rfl⟩,
   (C6_resources_integrity rdocBad).2⟩

theorem setAdd_mem (m : String → List String) (k v x y : String) :
    y ∈ setAdd m k v x ↔ (x = k ∧ y = v) ∨ y ∈ m x := by
  unfold setAdd
  by_cases hx : x = k
  · rw [hx, if_pos rfl]
    by_cases hv : v ∈ m k
    · rw [if_pos hv]
      constructor
      · exact fun h => Or.inr h
      · rintro (⟨-, rfl⟩ | h)
        · exact hv
        · exact h
    · rw [if_neg hv]
      simp only [List.mem_cons]
      constructor
      · rintro (rfl | h)
        · exact Or.inl ⟨trivial, rfl⟩
        · exact Or.inr h
      · rintro (⟨-, rfl⟩ | h)
        · exact Or.inl rfl
        · exact Or.inr h
  · rw [if_neg hx]
    simp [hx]

theorem processRef_inv {m m' : SkillsMap} {i r : String}
    (h : processRef m i r = .ok m')
    (hInv : ∀ a b, b ∈ m.skills_to_objectives_map a ↔ a ∈ m.objectives_to_skills_map b) :
    ∀ a b, b ∈ m'.skills_to_objectives_map a ↔ a ∈ m'.objectives_to_skills_map b := by
  unfold processRef at h
  split at h
  · cases h
    intro a b
    simp only [setAdd_mem]
    rw [hInv a b]
    tauto
  · cases h

theorem processObjective_inv {m m' : SkillsMap} {e : ObjectiveElt}
    (h : processObjective m e = .ok m')
    (hInv : ∀ a b, b ∈ m.skills_to_objectives_map a ↔ a ∈ m.objectives_to_skills_map b) :
    ∀ a b, b ∈ m'.skills_to_objectives_map a ↔ a ∈ m'.objectives_to_skills_map b := by
  cases hdo : e.descriptionElt with
  | none =>
    simp only [processObjective, hdo] at h
    cases h
  | some txt =>
    simp only [processObjective, hdo] at h
    refine exceptFold_preserve _
      (fun x : SkillsMap =>
        ∀ a b, b ∈ x.skills_to_objectives_map a ↔ a ∈ x.objectives_to_skills_map b)
      e.skillRefs
      (fun b a _ b' hPb hok => processRef_inv hok hPb)
      _ m' ?_ h
    exact hInv

theorem skillsMap_from_xml_inv (doc : SkillsDoc) (m : SkillsMap)
    (h : SkillsMap.from_xml doc = .ok m) :
    ∀ a b, b ∈ m.skills_to_objectives_map a ↔ a ∈ m.objectives_to_skills_map b := by
  unfold SkillsMap.from_xml at h
  refine exceptFold_preserve processObjective
    (fun x : SkillsMap =>
      ∀ a b, b ∈ x.skills_to_objectives_map a ↔ a ∈ x.objectives_to_skills_map b)
    doc.objectives
    (fun b o _ b' hPb hok => processObjective_inv hok hPb)
    _ m ?_ h
  have hadj := pureFold_preserve processSkill
    (fun x : SkillsMap => x.skills_to_objectives_map = (fun _ => []) ∧
      x.objectives_to_skills_map = (fun _ => []))
    doc.skills (fun b a _ hb => hb) SkillsMap.empty ⟨rfl, rfl⟩
  intro a b
  rw [hadj.1, hadj.2]
  simp

theorem processResourceRef_inv {rm rm' : ResourcesMap} {i r : String}
    (h : processResourceRef rm i r = .ok rm')
    (hInv : ∀ a b, b ∈ rm.skills_to_resources_map a ↔ a ∈ rm.resources_to_skills_map b) :
    ∀ a b, b ∈ rm'.skills_to_resources_map a ↔ a ∈ rm'.resources_to_skills_map b := by
  unfold processResourceRef at h
  split at h
  · cases h
    intro a b
    simp only [setAdd_mem]
    rw [hInv a b]
    tauto
  · cases h

theorem processResource_inv {rm rm' : ResourcesMap} {e : ResourceElt}
    (h : processResource rm e = .ok rm')
    (hInv : ∀ a b, b ∈ rm.skills_to_resources_map a ↔ a ∈ rm.resources_to_skills_map b) :
    ∀ a b, b ∈ rm'.skills_to_resources_map a ↔ a ∈ rm'.resources_to_skills_map b := by
  simp only [processResource] at h
  refine exceptFold_preserve _
    (fun x : ResourcesMap =>
      ∀ a b, b ∈ x.skills_to_resources_map a ↔ a ∈ x.resources_to_skills_map b)
    e.skillRefs
    (fun b a _ b' hPb hok => processResourceRef_inv hok hPb)
    _ rm' ?_ h
  exact hInv

theorem resourcesMap_from_xml_inv (doc : ResourcesDoc) (osm : Option SkillsMap)
    (rm : ResourcesMap) (h : ResourcesMap.from_xml doc osm = .ok rm) :
    ∀ a b, b ∈ rm.skills_to_resources_map a ↔ a ∈ rm.resources_to_skills_map b := by
  unfold ResourcesMap.from_xml at h
  refine exceptFold_preserve processResource
    (fun x : ResourcesMap =>
      ∀ a b, b ∈ x.skills_to_resources_map a ↔ a ∈ x.resources_to_skills_map b)
    doc.resources
    (fun b re _ b' hPb hok => processResource_inv hok hPb)
    _ rm ?_ h
  intro a b
  simp

/-- C7: for every SkillsMap and ResourcesMap produced by from_xml, the two
adjacency mappings of each are exact inverses: an objective is among a
skill's objectives iff the skill is among the objective's skills, and a
resource is among a skill's resources iff the skill is among the
resource's skills. -/
theorem C7_adjacency_inverse (doc : SkillsDoc) (m : SkillsMap)
    (h : SkillsMap.from_xml doc = .ok m)
    (rdoc : ResourcesDoc) (osm : Option SkillsMap) (rm : ResourcesMap)
    (hr : ResourcesMap.from_xml rdoc osm = .ok rm) :
    (∀ s o, o ∈ m.get_objectives_for_skill s ↔ s ∈ m.get_skills_for_objective o) ∧
    (∀ s r, r ∈ rm.get_resources_for_skill s ↔ s ∈ rm.get_skills_for_resource r) :=
  ⟨fun s o => skillsMap_from_xml_inv doc m h s o,
   fun s r => resourcesMap_from_xml_inv rdoc osm rm hr s r⟩

/-- C7 witness: the invariant instantiated on the maps built from doc1 and
rdoc1. -/
theorem C7_witness :
    (∀ s o, o ∈ m1.get_objectives_for_skill s ↔ s ∈ m1.get_skills_for_objective o) ∧
    (∀ s r, r ∈ rm1.get_resources_for_skill s ↔ s ∈ rm1.get_skills_for_resource r) :=
  C7_adjacency_inverse doc1 m1 rfl rdoc1 (some m1) rm1 rfl

theorem skillsFold_unique :
    ∀ (l : List SkillElt) (m0 : SkillsMap),
      ((m0.skills.map Skill.id) ++ l.map SkillElt.id).Nodup →
      (∀ s ∈ m0.skills, m0.skills_by_id s.id = some s) →
      (((l.foldl processSkill m0).skills.map Skill.id).Nodup ∧
        ∀ s ∈ (l.foldl processSkill m0).skills,
          (l.foldl processSkill m0).skills_by_id s.id = some s) := by
  intro l
  induction l with
  | nil =>
    intro m0 hnd hlk
    refine ⟨?_, hlk⟩
    simpa using hnd
  | cons e l ih =>
    intro m0 hnd hlk
    rw [List.foldl_cons]
    have heid : e.id ∉ m0.skills.map Skill.id := by
      intro hmem
      exact (List.nodup_append.mp hnd).2.2 hmem (List.mem_cons_self _ _)
    apply ih
    · have hsk : (processSkill m0 e).skills.map Skill.id =
          m0.skills.map Skill.id ++ [e.id] := by
        simp [processSkill]
      rw [hsk, List.append_assoc]
      simpa using hnd
    · intro s hs
      simp only [processSkill] at hs
      rcases List.mem_append.mp hs with hsold | hsnew
      · have hne : s.id ≠ e.id := by
          intro hcontra
          apply heid
          rw [← hcontra]
          exact List.mem_map.mpr ⟨s, hsold, rfl⟩
        show (if s.id = e.id then _ else _) = _
        rw [if_neg hne]
        exact hlk s hsold
      · have hseq : s = ⟨e.id, e.text⟩ := by simpa using hsnew
        subst hseq
        show (if Skill.id ⟨e.id, e.text⟩ = e.id then some ⟨e.id, e.text⟩
              else m0.skills_by_id (Skill.id ⟨e.id, e.text⟩)) = some ⟨e.id, e.text⟩
        rw [if_pos rfl]

/-- C8 counterexample: docDup declares two skills with the same id s1;
from_xml succeeds, both entries enter the ordered sequence (so ids are not
unique within it), and the id lookup returns the second skill, disagreeing
with the first entry of the sequence. -/
theorem C8_counterexample :
    SkillsMap.from_xml docDup = .ok mDup ∧
    mDup.skills.map Skill.id = ["s1", "s1"] ∧
    ¬ (mDup.skills.map Skill.id).Nodup ∧
    mDup.skills.head? = some ⟨"s1", some "a"⟩ ∧
    mDup.get_skill_by_id "s1" = some ⟨"s1", some "b"⟩ ∧
    mDup.get_skill_by_id "s1" ≠ some (⟨"s1", some "a"⟩ : Skill) :=
  ⟨rfl, rfl, by decide, rfl, rfl, by decide⟩

/-- C8 amended: from_xml does not enforce uniqueness of declared skill
ids (duplicates all enter the sequence and the lookup keeps the last);
for every skills document whose declared skill ids are pairwise distinct,
the produced SkillsMap has pairwise distinct ids in its ordered skills
sequence and get_skill_by_id (s.id) returns s for every s in the
sequence. -/
theorem C8_unique_ids (doc : SkillsDoc) (m : SkillsMap)
    (hnd : (doc.skills.map SkillElt.id).Nodup)
    (h : SkillsMap.from_xml doc = .ok m) :
    (m.skills.map Skill.id).Nodup ∧
    ∀ s ∈ m.skills, m.get_skill_by_id s.id = some s := by
  unfold SkillsMap.from_xml at h
  have hpres := exceptFold_preserve processObjective
    (fun x : SkillsMap =>
      x.skills = (doc.skills.foldl processSkill SkillsMap.empty).skills ∧
      x.skills_by_id = (doc.skills.foldl processSkill SkillsMap.empty).skills_by_id)
    doc.objectives
    (fun b o _ b' hPb hok => by
      obtain ⟨h1, h2⟩ := processObjective_ok_fields hok
      exact ⟨h2.trans hPb.1, h1.trans hPb.2⟩)
    _ m ⟨rfl, rfl⟩ h
  have hfold := skillsFold_unique doc.skills SkillsMap.empty
    (by simpa [SkillsMap.empty] using hnd)
    (by intro s hs; exact absurd hs (List.not_mem_nil s))
  constructor
  · rw [hpres.1]
    exact hfold.1
  · intro s hs
    rw [hpres.1] at hs
    show m.skills_by_id s.id = some s
    rw [hpres.2]
    exact hfold.2 s hs

/-- C8 witness: doc1 has pairwise distinct skill ids, and the resulting m1
satisfies both conclusions. -/
theorem C8_witness :
    (m1.skills.map Skill.id).Nodup ∧
    ∀ s ∈ m1.skills, m1.get_skill_by_id s.id = some s :=
  C8_unique_ids doc1 m1 (by decide) rfl

end SkillsModels
